import Mathlib

/-!
# Threat-intelligence platform: verification of the extraction and lookup core

A shallow embedding of the `tip-server` Go sources:

* `internal/extractor` (IOC pattern extraction over byte buffers),
* `cmd/api/main.go` (`checkHandler`, `contextHandler`),
* `cmd/ingestor/main.go` (`processFile` and the crawl pass),
* `internal/config/config.go` + the ClickHouse client (`CheckFileChanged`,
  `QueryIOCs` ordering contract),
* `internal/middleware/auth.go` (`NewAuthMiddleware`).

Byte buffers are modelled as `List Char` (the sources are ASCII-driven: every
pattern alphabet is ASCII, and Go regexp treats the input as a byte sequence).
Go run-time panics (slice out of range) are modelled by `Option`: a function
that can panic returns `none` exactly on the inputs where the Go original
panics.  Wall-clock timestamps are `Nat`.
-/

set_option autoImplicit false

namespace TIP

/-! ## Regular-expression engine

Go's `regexp` package provides leftmost-first (Perl-preference) matching:
`FindAllString` repeatedly finds the match starting at the earliest possible
position, and among matches at that position the one a backtracking search
would find first (alternation prefers the left branch, repetition is greedy).
The engine below implements exactly that semantics for the constructs used by
the extractor's patterns: character classes, concatenation, alternation,
bounded/unbounded repetition and the `\b` word-boundary assertion.

A matcher state is `(prev, rest)`: the character just before the current
position (for `\b`) and the remaining input.  `matchR` returns all states
reachable after the expression, in backtracking preference order.
-/

/-- Regular expressions over characters, covering the constructs appearing in
the extractor's patterns. -/
inductive Regex : Type where
  | cls (p : Char → Bool)
  | eps
  | cat (a b : Regex)
  | alt (a b : Regex)
  | rep (lo : Nat) (hi : Option Nat) (r : Regex)
  | wordB

/-- Go `regexp`'s `\w` for `\b` purposes: ASCII `[0-9A-Za-z_]`. -/
def isWordChar (c : Char) : Bool :=
  c.isAlpha || c.isDigit || c = '_'

/-- `\b` holds between `prev` and the head of `rest` (ends of input count as
non-word). -/
def boundaryAt (prev : Option Char) (rest : List Char) : Bool :=
  let a := match prev with | none => false | some c => isWordChar c
  let b := match rest with | [] => false | c :: _ => isWordChar c
  a != b

/-- Repetition matcher: `m` matches the body once.  Greedy: continuations with
more iterations come first.  An iteration must consume at least one character
(all repeated bodies in the extractor's patterns do).  `fuel` bounds the
number of iterations; callers pass `input length + 1`, which is sufficient
because every counted iteration consumes. -/
def repMatch (m : Option Char → List Char → List (Option Char × List Char)) :
    Nat → Nat → Option Nat → Option Char → List Char → List (Option Char × List Char)
  | 0, lo, _, prev, s => if lo = 0 then [(prev, s)] else []
  | fuel + 1, lo, hi, prev, s =>
    let canIter := match hi with | none => true | some h => 0 < h
    let iters :=
      if canIter then
        (m prev s).flatMap (fun pr =>
          if pr.2.length < s.length then
            repMatch m fuel (lo - 1)
              (match hi with | none => none | some h => some (h - 1)) pr.1 pr.2
          else [])
      else []
    iters ++ (if lo = 0 then [(prev, s)] else [])

/-- All states reachable after matching `r` at the current position, in
backtracking preference order (first = the match Go's engine commits to). -/
def matchR : Regex → Option Char → List Char → List (Option Char × List Char)
  | .cls _, _, [] => []
  | .cls p, _, c :: rest => if p c then [(some c, rest)] else []
  | .eps, prev, s => [(prev, s)]
  | .cat a b, prev, s =>
    (matchR a prev s).flatMap (fun pr => matchR b pr.1 pr.2)
  | .alt a b, prev, s => matchR a prev s ++ matchR b prev s
  | .wordB, prev, s => if boundaryAt prev s then [(prev, s)] else []
  | .rep lo hi r, prev, s =>
    repMatch (fun p t => matchR r p t) (s.length + 1) lo hi prev s

/-- One step of `FindAllString`: try the preferred match at each successive
position; on a (non-empty) match emit it and resume at its end, else advance
one character.  `fuel` bounds the number of steps (`length + 1` suffices). -/
def findAllFrom (r : Regex) : Nat → Option Char → List Char → List (List Char)
  | 0, _, _ => []
  | fuel + 1, prev, s =>
    match (matchR r prev s).head? with
    | some pr =>
      let k := s.length - pr.2.length
      if k = 0 then
        match s with
        | [] => []
        | c :: rest => findAllFrom r fuel (some c) rest
      else
        s.take k :: findAllFrom r fuel pr.1 pr.2
    | none =>
      match s with
      | [] => []
      | c :: rest => findAllFrom r fuel (some c) rest

/-- `regexp.FindAllString(pattern, -1)` over the whole input. -/
def findAll (r : Regex) (s : List Char) : List String :=
  (findAllFrom r (s.length + 1) none s).map (fun l => String.mk l)

/-! ### Pattern-building helpers -/

def rchar (c : Char) : Regex := .cls (fun x => x = c)

/-- Case-insensitive literal character (for `(?i)` patterns; `c` lowercase). -/
def rcharCI (c : Char) : Regex := .cls (fun x => x.toLower = c)

def rcat (l : List Regex) : Regex := l.foldr .cat .eps

/-- A regex that never matches: unit for alternation folding. -/
def rfail : Regex := .cls (fun _ => false)

def ralt (l : List Regex) : Regex := l.foldr .alt rfail

def rstr (s : String) : Regex := rcat (s.data.map rchar)

def rstrCI (s : String) : Regex := rcat (s.data.map rcharCI)

def ropt (r : Regex) : Regex := .rep 0 (some 1) r

def rplus (r : Regex) : Regex := .rep 1 none r

def rrep (n : Nat) (r : Regex) : Regex := .rep n (some n) r

def rrange (lo hi : Nat) (r : Regex) : Regex := .rep lo (some hi) r

/-! ## The extractor's compiled patterns (`internal/extractor`, `var (...)`) -/

/-- `[a-fA-F0-9]` -/
def hexCls : Regex := .cls (fun c =>
  c.isDigit || ('a' ≤ c && c ≤ 'f') || ('A' ≤ c && c ≤ 'F'))

def digitCls : Regex := .cls Char.isDigit

/-- One IPv4 octet: `25[0-5]|2[0-4][0-9]|[01]?[0-9][0-9]?` (alternation order
as in the source; `?` is greedy). -/
def octet : Regex := ralt
  [ rcat [rchar '2', rchar '5', .cls (fun c => '0' ≤ c && c ≤ '5')],
    rcat [rchar '2', .cls (fun c => '0' ≤ c && c ≤ '4'), digitCls],
    rcat [ropt (.cls (fun c => c = '0' || c = '1')), digitCls, ropt digitCls] ]

/-- `ipv4Pattern`: `\b(?:octet\.){3}octet\b` -/
def ipv4Pattern : Regex :=
  rcat [.wordB, rrep 3 (rcat [octet, rchar '.']), octet, .wordB]

/-- `h{1,4}` where `h = [0-9a-fA-F]` -/
def h14 : Regex := rrange 1 4 hexCls

/-- `ipv6FullPattern`: `\b(?:h{1,4}:){7}h{1,4}\b` -/
def ipv6FullPattern : Regex :=
  rcat [.wordB, rrep 7 (rcat [h14, rchar ':']), h14, .wordB]

/-- `(?:h{1,4}:)` -/
def grpL : Regex := rcat [h14, rchar ':']

/-- `(?::h{1,4})` -/
def grpR : Regex := rcat [rchar ':', h14]

/-- `ipv6CompressedPattern`, the nine-way alternation transcribed verbatim.
`\b` binds only to the first alternative's start and the last alternative's
end, exactly as in the source string. -/
def ipv6CompressedPattern : Regex := ralt
  [ rcat [.wordB, rrange 1 7 grpL, rchar ':'],
    rcat [rrange 1 6 grpL, rchar ':', h14],
    rcat [rrange 1 5 grpL, rrange 1 2 grpR],
    rcat [rrange 1 4 grpL, rrange 1 3 grpR],
    rcat [rrange 1 3 grpL, rrange 1 4 grpR],
    rcat [rrange 1 2 grpL, rrange 1 5 grpR],
    rcat [h14, rchar ':', rrange 1 6 grpR],
    rcat [rchar ':', rrange 1 7 grpR],
    rcat [rchar ':', rchar ':',
          ropt (rcat [rrep 4 (.cls (fun c => c = 'f' || c = 'F')), rchar ':']),
          rrep 3 (rcat [octet, rchar '.']), octet, .wordB] ]

/-- `md5Pattern`: `\b[a-fA-F0-9]{32}\b` -/
def md5Pattern : Regex := rcat [.wordB, rrep 32 hexCls, .wordB]

/-- `sha1Pattern`: `\b[a-fA-F0-9]{40}\b` -/
def sha1Pattern : Regex := rcat [.wordB, rrep 40 hexCls, .wordB]

/-- `sha256Pattern`: `\b[a-fA-F0-9]{64}\b` -/
def sha256Pattern : Regex := rcat [.wordB, rrep 64 hexCls, .wordB]

/-- `(?i)[a-z0-9]` -/
def alnumCI : Regex := .cls (fun c => c.isAlpha || c.isDigit)

/-- `(?i)[a-z0-9-]` -/
def alnumDashCI : Regex := .cls (fun c => c.isAlpha || c.isDigit || c = '-')

/-- `(?i)[a-z]` -/
def alphaCI : Regex := .cls Char.isAlpha

/-- `domainPattern`:
`(?i)\b(?:[a-z0-9](?:[a-z0-9-]{0,61}[a-z0-9])?\.)+(?:com|net|org|...|[a-z]{2})\b` -/
def domainPattern : Regex :=
  rcat [.wordB,
        rplus (rcat [alnumCI, ropt (rcat [rrange 0 61 alnumDashCI, alnumCI]),
                     rchar '.']),
        ralt ([ "com", "net", "org", "edu", "gov", "mil", "int", "info",
                "biz", "name", "pro", "aero", "coop", "museum"
              ].map rstrCI ++ [rrep 2 alphaCI]),
        .wordB]

/-- The byte codes excluded by the URL pattern's character class
`[^\s<>"'\x60{}\[\]|\\^]` (Go `\s` is `[\t\n\f\r ]`): tab, newline, form
feed, carriage return, space, `<`, `>`, double quote, apostrophe, backtick,
both braces, both square brackets, pipe, backslash, caret. -/
def urlExcludedCodes : List Nat :=
  [9, 10, 12, 13, 32, 60, 62, 34, 39, 96, 123, 125, 91, 93, 124, 92, 94]

/-- `urlPattern`: `(?i)\bhttps?://[^\s<>"'\x60{}\[\]|\\^]+` -/
def urlPattern : Regex :=
  rcat [.wordB, rstrCI "http", ropt (rcharCI 's'), rstr "://",
        rplus (.cls (fun c => !(urlExcludedCodes.contains c.toNat)))]

/-- `(?i)[a-z0-9._%+-]` (email local part) -/
def emailLocalCls : Regex := .cls (fun c =>
  c.isAlpha || c.isDigit || c = '.' || c = '_' || c = '%' || c = '+' || c = '-')

/-- `(?i)[a-z0-9.-]` (email domain part) -/
def emailDomainCls : Regex := .cls (fun c =>
  c.isAlpha || c.isDigit || c = '.' || c = '-')

/-- `emailPattern`: `(?i)\b[a-z0-9._%+-]+@[a-z0-9.-]+\.[a-z]{2,}\b` -/
def emailPattern : Regex :=
  rcat [.wordB, rplus emailLocalCls, rchar '@', rplus emailDomainCls,
        rchar '.', .rep 2 none alphaCI, .wordB]

/-! ## Go standard library models

`net.ParseIP` (as of Go ≥ 1.17: dotted-quad fields reject leading zeros),
`IP.To4`, `strings.TrimRight`.  An IP value is its byte sequence: 4 bytes for
a dotted quad, 16 for an IPv6 literal. -/

def isHexChar (c : Char) : Bool :=
  c.isDigit || ('a' ≤ c && c ≤ 'f') || ('A' ≤ c && c ≤ 'F')

/-- `strings.ToLower` (ASCII; every alphabet below is ASCII). -/
def strToLower (s : String) : String :=
  String.mk (s.data.map Char.toLower)

/-- `strings.HasPrefix` on character lists. -/
def listStartsWith : List Char → List Char → Bool
  | _, [] => true
  | [], _ :: _ => false
  | c :: cs, p :: ps => c = p && listStartsWith cs ps

/-- `strings.HasPrefix s pre`. -/
def strStartsWith (s pre : String) : Bool :=
  listStartsWith s.data pre.data

/-- `strings.Split` by a one-character separator. -/
def splitOnChar (sep : Char) : List Char → List (List Char)
  | [] => [[]]
  | c :: rest =>
    if c = sep then [] :: splitOnChar sep rest
    else match splitOnChar sep rest with
    | [] => [[c]]
    | g :: gs => (c :: g) :: gs

/-- `strings.Split` by `"::"` (leftmost, non-overlapping). -/
def splitOnCC : List Char → List (List Char)
  | [] => [[]]
  | ':' :: ':' :: rest => [] :: splitOnCC rest
  | c :: rest =>
    match splitOnCC rest with
    | [] => [[c]]
    | g :: gs => (c :: g) :: gs

def digitsVal (l : List Char) : Nat :=
  l.foldl (fun n c => n * 10 + (c.toNat - 48)) 0

def hexDigitsVal (l : List Char) : Nat :=
  l.foldl (fun n c =>
    n * 16 + (if c.isDigit then c.toNat - 48 else c.toLower.toNat - 87)) 0

/-- One dotted-quad field: 1–3 digits, ≤ 255, no leading zero. -/
def v4FieldOK (f : List Char) : Bool :=
  1 ≤ f.length && f.length ≤ 3 && f.all Char.isDigit &&
  (f.length = 1 || f.head? != some '0') && digitsVal f ≤ 255

/-- `net.ParseIP` on a dotted quad, as four bytes. -/
def parseIPv4 (s : List Char) : Option (List Nat) :=
  let fields := splitOnChar '.' s
  if fields.length = 4 && fields.all v4FieldOK then
    some (fields.map digitsVal)
  else none

/-- One IPv6 hex group: 1–4 hex digits. -/
def v6GroupOK (f : List Char) : Bool :=
  1 ≤ f.length && f.length ≤ 4 && f.all isHexChar

/-- Fields of one side of an IPv6 literal to 16-bit groups.  A field
containing `.` is a dotted quad contributing two groups, permitted only as
the final field of the address (`allowV4`). -/
def groupsOf : List (List Char) → Bool → Option (List Nat)
  | [], _ => some []
  | [f], allowV4 =>
    if f.contains '.' then
      if allowV4 then
        (parseIPv4 f).map (fun bs =>
          [bs.getD 0 0 * 256 + bs.getD 1 0, bs.getD 2 0 * 256 + bs.getD 3 0])
      else none
    else if v6GroupOK f then some [hexDigitsVal f] else none
  | f :: g :: rest, allowV4 => do
    let x ← if v6GroupOK f then some (hexDigitsVal f) else none
    let xs ← groupsOf (g :: rest) allowV4
    pure (x :: xs)

def groupsToBytes (gs : List Nat) : List Nat :=
  gs.flatMap (fun g => [g / 256, g % 256])

/-- `net.ParseIP` on an IPv6 literal (zone suffixes rejected; at most one
`::`, which must expand to at least one zero group), as 16 bytes. -/
def parseIPv6 (s : List Char) : Option (List Nat) :=
  if s.contains '%' then none
  else match splitOnCC s with
  | [whole] =>
    let fields := splitOnChar ':' whole
    if fields.any (fun f => f.isEmpty) then none
    else match groupsOf fields true with
    | some gs => if gs.length = 8 then some (groupsToBytes gs) else none
    | none => none
  | [l, r] =>
    let lf := if l.isEmpty then [] else splitOnChar ':' l
    let rf := if r.isEmpty then [] else splitOnChar ':' r
    if lf.any (fun f => f.isEmpty) || rf.any (fun f => f.isEmpty) then none
    else match groupsOf lf false, groupsOf rf true with
    | some gl, some gr =>
      if gl.length + gr.length ≤ 7 then
        some (groupsToBytes
          (gl ++ List.replicate (8 - gl.length - gr.length) 0 ++ gr))
      else none
    | _, _ => none
  | _ => none

/-- `net.ParseIP`: the first `.` or `:` decides the parse. -/
def goParseIP (s : String) : Option (List Nat) :=
  match s.data.find? (fun c => c = '.' || c = ':') with
  | some c => if c = '.' then parseIPv4 s.data else parseIPv6 s.data
  | none => none

/-- `ip.To4() == nil`: false for 4-byte values and for IPv4-mapped 16-byte
values (10 zero bytes then `ff ff`). -/
def ipTo4IsNil (bytes : List Nat) : Bool :=
  if bytes.length = 4 then false
  else if bytes.length = 16 then
    !((bytes.take 10).all (fun b => b = 0) &&
      bytes.getD 10 0 = 255 && bytes.getD 11 0 = 255)
  else true

/-- `strings.TrimRight`: remove the maximal trailing run of characters from
`cutset`. -/
def goTrimRight (s : String) (cutset : List Char) : String :=
  String.mk ((s.data.reverse.dropWhile (fun c => cutset.contains c)).reverse)

/-- Go string slicing `s[:n]`, which panics (`none`) when `n > len(s)`. -/
def goSlice (s : String) (n : Nat) : Option String :=
  if n ≤ s.length then some (String.mk (s.data.take n)) else none

/-! ## Extractor helpers (`internal/extractor`) -/

/-- `deduplicate`: drop duplicates, preserving first-seen order. -/
def deduplicate (items : List String) : List String :=
  items.foldl (fun acc item => if acc.contains item then acc else acc ++ [item]) []

/-- `toLower` on a slice of strings. -/
def toLowerAll (items : List String) : List String :=
  items.map strToLower

/-- `validateIPv4s`: keep strings `net.ParseIP` accepts. -/
def validateIPv4s (ips : List String) : List String :=
  ips.filter (fun ip => (goParseIP ip).isSome)

/-- `validateIPv6s`: keep strings that parse and are not IPv4(-mapped). -/
def validateIPv6s (ips : List String) : List String :=
  ips.filter (fun ip =>
    match goParseIP ip with
    | some bytes => ipTo4IsNil bytes
    | none => false)

/-- `hashFalsePositivePatterns`: 32 `f`s and 32 `0`s. -/
def hashFalsePositivePatterns : List String :=
  ["ffffffffffffffffffffffffffffffff", "00000000000000000000000000000000"]

/-- The per-hash test inside `filterHashFalsePositives`:
`strings.HasPrefix(lower, fp[:len(lower)]) || lower == fp[:len(lower)]`.
The slice `fp[:len(lower)]` panics when `len(lower)` exceeds the 32-character
pattern length, modelled by `none`. -/
def hashIsFalsePositive (lower : String) : List String → Option Bool
  | [] => some false
  | fp :: rest => do
    let pre ← goSlice fp lower.length
    if strStartsWith lower pre || lower = pre then some true
    else hashIsFalsePositive lower rest

/-- `filterHashFalsePositives`; `none` models the Go slice-bounds panic. -/
def filterHashFalsePositives : List String → Option (List String)
  | [] => some []
  | h :: rest => do
    let isFP ← hashIsFalsePositive (strToLower h) hashFalsePositivePatterns
    let tail ← filterHashFalsePositives rest
    pure (if isFP then tail else h :: tail)

/-! ## Extractors and `Scan` -/

def extractIPv4 (content : List Char) : List String :=
  deduplicate (validateIPv4s (findAll ipv4Pattern content))

def extractIPv6 (content : List Char) : List String :=
  deduplicate (validateIPv6s
    (findAll ipv6FullPattern content ++ findAll ipv6CompressedPattern content))

def extractMD5 (content : List Char) : Option (List String) :=
  (filterHashFalsePositives (findAll md5Pattern content)).map
    (fun filtered => deduplicate (toLowerAll filtered))

def extractSHA1 (content : List Char) : Option (List String) :=
  (filterHashFalsePositives (findAll sha1Pattern content)).map
    (fun filtered => deduplicate (toLowerAll filtered))

def extractSHA256 (content : List Char) : Option (List String) :=
  (filterHashFalsePositives (findAll sha256Pattern content)).map
    (fun filtered => deduplicate (toLowerAll filtered))

def extractDomains (content : List Char) : List String :=
  deduplicate (toLowerAll (findAll domainPattern content))

/-- The trailing cutset `.,;:!?)` passed to `strings.TrimRight`. -/
def urlTrimCutset : List Char := ['.', ',', ';', ':', '!', '?', ')']

def extractURLs (content : List Char) : List String :=
  deduplicate ((findAll urlPattern content).map
    (fun u => goTrimRight u urlTrimCutset))

def extractEmails (content : List Char) : List String :=
  deduplicate (toLowerAll (findAll emailPattern content))

/-- The value of a scan: one deduplicated list per IOC type.  The Go code
returns a map and deletes empty entries; an empty list here corresponds to an
absent key, which is observationally identical for every caller (callers only
iterate or take lengths). -/
structure ScanResult where
  ipv4 : List String
  ipv6 : List String
  md5 : List String
  sha1 : List String
  sha256 : List String
  domain : List String
  url : List String
  email : List String
deriving DecidableEq, Repr

/-- `Extractor.Scan`.  The Go signature returns `(map, error)` with the error
always `nil`; the `Option` here models the run-time panic that escapes `Scan`
when `filterHashFalsePositives` slices a 32-character pattern beyond its
length.  Extractors run in source order (ipv4, ipv6, md5, sha1, sha256,
domain, url, email); a panic aborts the remaining ones. -/
def Scan (content : List Char) : Option ScanResult := do
  let i4 := extractIPv4 content
  let i6 := extractIPv6 content
  let m ← extractMD5 content
  let s1 ← extractSHA1 content
  let s2 ← extractSHA256 content
  let d := extractDomains content
  let u := extractURLs content
  let e := extractEmails content
  pure ⟨i4, i6, m, s1, s2, d, u, e⟩

/-- `CountIOCs`: total matches across all types. -/
def CountIOCs (r : ScanResult) : Nat :=
  r.ipv4.length + r.ipv6.length + r.md5.length + r.sha1.length +
  r.sha256.length + r.domain.length + r.url.length + r.email.length

/-! ## Data model (`internal/models/models.go`) -/

inductive IOCType : Type where
  | ipv4 | ipv6 | domain | url | md5 | sha1 | sha256 | email
deriving DecidableEq, Repr

inductive ScanStatus : Type where
  | pending | clean | infected | misc | failed
deriving DecidableEq, Repr

/-- `models.IOC`. -/
structure IOC where
  value : String
  type : IOCType
  sourceFileID : String
  malwareFamily : String := ""
  confidence : Nat := 0
  firstSeen : Nat := 0
  lastSeen : Nat := 0
  hitCount : Nat := 0
  vectorID : Option Nat := none
  tags : List String := []
deriving DecidableEq, Repr

/-- `models.FileMetadata` (the File Record). -/
structure FileMetadata where
  fileID : String
  filePath : String
  fileSize : Nat
  lastModified : Nat
  scanStatus : ScanStatus
  iocCount : Nat
  minioKey : String := ""
  errorMessage : String := ""
  processedAt : Nat := 0
  updatedAt : Nat := 0
deriving DecidableEq, Repr

/-- `FlattenIOCs`: one `IOC` per extracted value, tagged with its type and the
source file id.  The Go original iterates a map (unspecified order); this
embedding fixes the declaration order of the types, which no caller observes
beyond multiset content. -/
def FlattenIOCs (r : ScanResult) (sourceFileID : String) : List IOC :=
  (r.ipv4.map (fun v => { value := v, type := .ipv4, sourceFileID })) ++
  (r.ipv6.map (fun v => { value := v, type := .ipv6, sourceFileID })) ++
  (r.md5.map (fun v => { value := v, type := .md5, sourceFileID })) ++
  (r.sha1.map (fun v => { value := v, type := .sha1, sourceFileID })) ++
  (r.sha256.map (fun v => { value := v, type := .sha256, sourceFileID })) ++
  (r.domain.map (fun v => { value := v, type := .domain, sourceFileID })) ++
  (r.url.map (fun v => { value := v, type := .url, sourceFileID })) ++
  (r.email.map (fun v => { value := v, type := .email, sourceFileID }))

/-! ## API data shapes (`internal/models`) -/

structure ErrorResponse where
  error : String
  code : Nat
  details : String := ""
deriving DecidableEq, Repr

structure IOCResult where
  ioc : String
  found : Bool
  type : Option IOCType := none
  sourceFileID : String := ""
  malwareFamily : String := ""
  confidence : Nat := 0
  firstSeen : Nat := 0
deriving DecidableEq, Repr

structure CheckResponse where
  results : List IOCResult
  total : Nat
  found : Nat
  notFound : Nat
deriving DecidableEq, Repr

/-! ## Go map model (for `foundMap` in `checkHandler`)

A Go `map[string]IOC` built by successive assignments: represented as an
association list where assignment replaces the binding in place. -/

def goMapSet : List (String × IOC) → String → IOC → List (String × IOC)
  | [], k, v => [(k, v)]
  | (k0, v0) :: rest, k, v =>
    if k0 = k then (k0, v) :: rest else (k0, v0) :: goMapSet rest k v

def goMapGet : List (String × IOC) → String → Option IOC
  | [], _ => none
  | (k0, v0) :: rest, k => if k0 = k then some v0 else goMapGet rest k

/-- `for _, ioc := range foundIOCs { foundMap[ioc.Value] = ioc }` -/
def buildFoundMap (foundIOCs : List IOC) : List (String × IOC) :=
  foundIOCs.foldl (fun m ioc => goMapSet m ioc.value ioc) []

/-! ## `checkHandler` (`cmd/api/main.go`)

External stores appear as oracles: `bloom` models `redis.BFMExists` (`none`
= error; the handler then degrades to all-true) and `queryIOCs` models
`ClickHouseClient.QueryIOCs` (`none` = error; the handler logs and continues
with no rows).  The handler consults an oracle only on the paths where the Go
code performs the corresponding RPC. -/

inductive CheckOut : Type where
  | badRequest (e : ErrorResponse)
  | ok (r : CheckResponse)
deriving DecidableEq, Repr

/-- Build one positional result from the found-map. -/
def resultFor (fm : List (String × IOC)) (v : String) : IOCResult :=
  match goMapGet fm v with
  | some f =>
    { ioc := v, found := true, type := some f.type,
      sourceFileID := f.sourceFileID, malwareFamily := f.malwareFamily,
      confidence := f.confidence, firstSeen := f.firstSeen }
  | none => { ioc := v, found := false }

def checkHandler (bloom : List String → Option (List Bool))
    (queryIOCs : List String → Option (List IOC))
    (iocs : List String) : CheckOut :=
  if iocs.length = 0 then
    .badRequest { error := "No IOCs provided", code := 400 }
  else if 1000 < iocs.length then
    .badRequest { error := "Too many IOCs", code := 400,
                  details := "Maximum 1000 IOCs per request" }
  else
    let bloomResults :=
      match bloom iocs with
      | some bs => bs
      | none => List.replicate iocs.length true
    let potentialHits :=
      (iocs.zip bloomResults).filterMap
        (fun pr => if pr.2 then some pr.1 else none)
    let foundIOCs :=
      if 0 < potentialHits.length then (queryIOCs potentialHits).getD []
      else []
    let fm := buildFoundMap foundIOCs
    let results := iocs.map (resultFor fm)
    let foundCount := results.countP (fun r => r.found)
    .ok { results := results, total := iocs.length, found := foundCount,
          notFound := iocs.length - foundCount }

/-! ## `contextHandler` (`cmd/api/main.go`)

The registry read (`GetFileMetadata`, projected to the max-`updated_at` row)
is an oracle `reg`; the blob store is an oracle `blob` covering the three
outcomes of `minio.GetObject` + `obj.Stat()`. -/

structure ObjInfo where
  size : Nat
  contentType : String
deriving DecidableEq, Repr

inductive GetObjectResult : Type where
  | errGet
  | okStatErr
  | okObj (info : ObjInfo)
deriving DecidableEq, Repr

inductive ContextOut : Type where
  | badRequest (e : ErrorResponse)
  | notFound (e : ErrorResponse)
  | serverError (e : ErrorResponse)
  | okStream (contentType : String) (contentLength : Nat)
      (contentDisposition : String) (xFileID : String) (xOriginalPath : String)
deriving DecidableEq, Repr

def contextHandler (reg : String → Option FileMetadata)
    (blob : String → GetObjectResult) (fileID : String) : ContextOut :=
  if fileID = "" then
    .badRequest { error := "Missing file_id", code := 400 }
  else
    match reg fileID with
    | none =>
      .notFound { error := "File not found", code := 404, details := fileID }
    | some meta =>
      let minioKey := if meta.minioKey = "" then fileID else meta.minioKey
      match blob minioKey with
      | .errGet =>
        .notFound { error := "File content not available", code := 404,
                    details := "File may not have been stored in object storage" }
      | .okStatErr =>
        .serverError { error := "Failed to get file info", code := 500 }
      | .okObj info =>
        .okStream info.contentType info.size
          ("attachment; filename=\"" ++ fileID ++ "\"") fileID meta.filePath

/-! ## Registry change detection (`internal/config/config.go`, ClickHouse client)

`CheckFileChanged` reads the stored `last_modified` for a file id (the
max-`updated_at` row); a missing row reads as "changed" (new file). -/

def CheckFileChanged (registry : String → Option FileMetadata)
    (fileID : String) (lastModified : Nat) : Bool :=
  match registry fileID with
  | none => true
  | some m => !(m.lastModified = lastModified)

/-! ## Ingestion worker (`cmd/ingestor/main.go`, `processFile`)

External effects appear as oracle fields of `WorkerEnv`; `processFile`
returns the observable outcome of one file: the produced result status, the
File Record upserted to the registry (`none` when the code returns before the
upsert), the index rows the batch insert committed (`[]` when the batch
failed — the batch is atomic), the blob key uploaded, and the statistics
increments.  The whole outcome is `none` when the extractor panics (the Go
worker goroutine has no recover and the panic escapes). -/

structure FileJob where
  filePath : String
  fileSize : Nat
  lastModified : Nat
deriving DecidableEq, Repr

structure WorkerEnv where
  registry : String → Option FileMetadata
  readFile : String → Except String (List Char)
  insertOk : Bool
  uploadOk : Bool
  now : Nat

structure FileOutcome where
  status : ScanStatus
  errorMsg : Option String
  upserted : Option FileMetadata
  inserted : List IOC
  uploadedKey : Option String
  processedInc : Nat
  skippedInc : Nat
  failedInc : Nat
deriving DecidableEq, Repr

/-- `processFile`, parameterised over the file-id derivation
(`db.GenerateFileID`, a SHA-256 of the path; every property proved below
holds for an arbitrary derivation `gen`). -/
def processFile (gen : String → String) (env : WorkerEnv) (job : FileJob) :
    Option FileOutcome :=
  let fileID := gen job.filePath
  let changed := CheckFileChanged env.registry fileID job.lastModified
  if !changed then
    some { status := .clean, errorMsg := none, upserted := none,
           inserted := [], uploadedKey := none,
           processedInc := 0, skippedInc := 1, failedInc := 0 }
  else
    match env.readFile job.filePath with
    | .error e =>
      some { status := .failed, errorMsg := some e, upserted := none,
             inserted := [], uploadedKey := none,
             processedInc := 0, skippedInc := 0, failedInc := 1 }
    | .ok content =>
      match Scan content with
      | none => none
      | some iocs =>
        let iocCount := CountIOCs iocs
        if 0 < iocCount then
          let iocList := (FlattenIOCs iocs fileID).map (fun i =>
            { i with firstSeen := env.now, lastSeen := env.now,
                     confidence := 50, malwareFamily := "Unknown" })
          let meta : FileMetadata :=
            { fileID := fileID, filePath := job.filePath,
              fileSize := job.fileSize, lastModified := job.lastModified,
              scanStatus := .infected, iocCount := iocCount,
              minioKey := "", errorMessage := "",
              processedAt := env.now, updatedAt := env.now }
          some { status := .infected, errorMsg := none,
                 upserted := some meta,
                 inserted := if env.insertOk then iocList else [],
                 uploadedKey := none,
                 processedInc := 1, skippedInc := 0, failedInc := 0 }
        else
          let meta : FileMetadata :=
            { fileID := fileID, filePath := job.filePath,
              fileSize := job.fileSize, lastModified := job.lastModified,
              scanStatus := .misc, iocCount := 0,
              minioKey := fileID, errorMessage := "",
              processedAt := env.now, updatedAt := env.now }
          some { status := .misc, errorMsg := none,
                 upserted := some meta,
                 inserted := [],
                 uploadedKey := if env.uploadOk then some fileID else none,
                 processedInc := 1, skippedInc := 0, failedInc := 0 }

/-! ## A crawl pass over a job list

The worker pool's per-file work is `processFile`; a pass folds it over the
enqueued jobs (the claims below concern per-file effects and counters, which
are order-insensitive; the embedding fixes the walk order). -/

structure PipeState where
  registry : String → Option FileMetadata
  indexRows : List IOC
  processed : Nat
  skipped : Nat
  failed : Nat

/-- `UpsertFileMetadata` followed by the reader-side max-`updated_at`
projection: the new row shadows the previous one for its file id. -/
def upsertReg (reg : String → Option FileMetadata) (m : FileMetadata) :
    String → Option FileMetadata :=
  fun k => if k = m.fileID then some m else reg k

def applyOutcome (st : PipeState) (o : FileOutcome) : PipeState :=
  { registry :=
      match o.upserted with
      | some m => upsertReg st.registry m
      | none => st.registry,
    indexRows := st.indexRows ++ o.inserted,
    processed := st.processed + o.processedInc,
    skipped := st.skipped + o.skippedInc,
    failed := st.failed + o.failedInc }

def runPass (gen : String → String) (insertOk uploadOk : Bool) (now : Nat)
    (readF : String → Except String (List Char)) :
    List FileJob → PipeState → Option PipeState
  | [], st => some st
  | job :: rest, st =>
    match processFile gen
        ⟨st.registry, readF, insertOk, uploadOk, now⟩ job with
    | none => none
    | some o => runPass gen insertOk uploadOk now readF rest (applyOutcome st o)

/-! ## Auth middleware (`internal/middleware/auth.go`)

The claim-relevant behaviour of `NewAuthMiddleware`'s handler up to the
authentication decision (rate limiting happens after and never yields 401).
`config.Load` defaults `API.APIKey` to the empty string
(`getEnv("API_KEY", "")`). -/

def defaultAPIKey : String := ""

/-- Key extraction: `X-API-Key` header, else a `Bearer` token. -/
def extractKey (xApiKey authHeader : String) : String :=
  if xApiKey ≠ "" then xApiKey
  else if strStartsWith authHeader "Bearer " then String.mk (authHeader.data.drop 7)
  else ""

/-- Skip check: exact path match against the skip set, then the prefix loop. -/
def pathSkipped (skipPaths : List String) (path : String) : Bool :=
  skipPaths.contains path || skipPaths.any (fun p => strStartsWith path p)

inductive AuthOutcome : Type where
  | skip
  | missingKey
  | invalidKey
  | authorized (key : String)
deriving DecidableEq, Repr

def authMiddleware (cfgKey : String) (skipPaths : List String)
    (path xApiKey authHeader : String) : AuthOutcome :=
  if pathSkipped skipPaths path then .skip
  else
    let apiKey := extractKey xApiKey authHeader
    if apiKey = "" then .missingKey
    else if cfgKey ≠ "" && apiKey ≠ cfgKey then .invalidKey
    else .authorized apiKey

/-! ## Concrete fixtures used by the claim instances -/

/-- Two index rows for the same value `"v"`, ordered by descending
`last_seen` as `QueryIOCs` returns them. -/
def c2rowNewer : IOC :=
  { value := "v", type := .ipv4, sourceFileID := "f1",
    malwareFamily := "Unknown", confidence := 50,
    firstSeen := 1, lastSeen := 5 }

def c2rowOlder : IOC :=
  { value := "v", type := .ipv4, sourceFileID := "f2",
    malwareFamily := "Unknown", confidence := 50,
    firstSeen := 1, lastSeen := 3 }

/-- An environment whose IOC-index batch insert fails (`insertOk = false`)
for a readable, previously unseen file containing one IPv4. -/
def c3envInsert : WorkerEnv :=
  { registry := fun _ => none,
    readFile := fun _ => .ok "8.8.8.8".data,
    insertOk := false, uploadOk := true, now := 0 }

/-- An environment whose blob-store upload fails (`uploadOk = false`) for a
readable, previously unseen file with no indicators. -/
def c3envUpload : WorkerEnv :=
  { registry := fun _ => none,
    readFile := fun _ => .ok "no indicators here".data,
    insertOk := true, uploadOk := false, now := 0 }

def c3job : FileJob := { filePath := "/data/a.log", fileSize := 7, lastModified := 7 }

/-- The File Record `processFile` upserts in the insert-failure run. -/
def c3metaInsert : FileMetadata :=
  { fileID := "/data/a.log", filePath := "/data/a.log", fileSize := 7,
    lastModified := 7, scanStatus := .infected, iocCount := 1,
    minioKey := "", errorMessage := "", processedAt := 0, updatedAt := 0 }

/-- The File Record `processFile` upserts in the upload-failure run. -/
def c3metaUpload : FileMetadata :=
  { fileID := "/data/a.log", filePath := "/data/a.log", fileSize := 7,
    lastModified := 7, scanStatus := .misc, iocCount := 0,
    minioKey := "/data/a.log", errorMessage := "",
    processedAt := 0, updatedAt := 0 }

/-- The scan result of the buffer `"8.8.8.8"`: a single IPv4. -/
def scanOneIPv4 : ScanResult := ⟨["8.8.8.8"], [], [], [], [], [], [], []⟩

/-- A registry holding one File Record whose `blob_key` (`minio_key`) is
empty (an `infected` record). -/
def c4meta : FileMetadata :=
  { fileID := "abc", filePath := "/data/b.bin", fileSize := 18,
    lastModified := 1, scanStatus := .infected, iocCount := 2,
    minioKey := "", errorMessage := "", processedAt := 0, updatedAt := 0 }

def c4reg : String → Option FileMetadata :=
  fun k => if k = "abc" then some c4meta else none

/-- A blob store that happens to hold an object under the file id. -/
def c4blobHit : String → GetObjectResult :=
  fun k => if k = "abc" then .okObj ⟨18, "text/plain"⟩ else .errGet

/-- A blob store with no objects. -/
def c4blobMiss : String → GetObjectResult := fun _ => .errGet

/-- The outcome of the skip path (`clean`, no upsert, no rows, counters
untouched except `files_skipped`). -/
def skipOutcome : FileOutcome :=
  { status := .clean, errorMsg := none, upserted := none, inserted := [],
    uploadedKey := none, processedInc := 0, skippedInc := 1, failedInc := 0 }

/-- A registry with one up-to-date record for `"/a"`. -/
def c7meta : FileMetadata :=
  { fileID := "/a", filePath := "/a", fileSize := 3, lastModified := 7,
    scanStatus := .infected, iocCount := 1, minioKey := "",
    errorMessage := "", processedAt := 0, updatedAt := 0 }

def c7st : PipeState :=
  { registry := fun k => if k = "/a" then some c7meta else none,
    indexRows := [], processed := 0, skipped := 0, failed := 0 }

def c7jobs : List FileJob := [{ filePath := "/a", fileSize := 3, lastModified := 7 }]

def c7readF : String → Except String (List Char) := fun _ => .error "unreadable"

/-- Oracles used by the lookup witnesses: both stores erroring. -/
def bloomErr : List String → Option (List Bool) := fun _ => none

def queryErr : List String → Option (List IOC) := fun _ => none

/-! ## Helper lemmas -/

/-- Deduplication only keeps elements of the input. -/
theorem mem_of_mem_deduplicate {x : String} {items : List String}
    (h : x ∈ deduplicate items) : x ∈ items := by
  have key : ∀ (l acc : List String), x ∈ l.foldl
      (fun acc item => if acc.contains item then acc else acc ++ [item]) acc →
      x ∈ acc ∨ x ∈ l := by
    intro l
    induction l with
    | nil => intro acc h; exact Or.inl h
    | cons a as ih =>
      intro acc h
      rcases ih _ h with hacc | has
      · dsimp only at hacc
        by_cases hc : acc.contains a
        · rw [if_pos hc] at hacc
          exact Or.inl hacc
        · rw [if_neg hc] at hacc
          rcases List.mem_append.mp hacc with h1 | h1
          · exact Or.inl h1
          · exact Or.inr (List.mem_cons.mpr (Or.inl (List.mem_singleton.mp h1)))
      · exact Or.inr (List.mem_cons_of_mem a has)
  rcases key items [] h with h0 | h0
  · cases h0
  · exact h0

/-- The head surviving `dropWhile` fails the predicate. -/
theorem head_dropWhile_not {α : Type} (p : α → Bool) :
    ∀ (l : List α) (c : α), (l.dropWhile p).head? = some c → p c = false := by
  intro l
  induction l with
  | nil => intro c h; cases h
  | cons a as ih =>
    intro c h
    by_cases hpa : p a
    · rw [List.dropWhile_cons_of_pos hpa] at h
      exact ih c h
    · rw [List.dropWhile_cons_of_neg hpa] at h
      cases h
      exact Bool.of_not_eq_true hpa

set_option maxRecDepth 1000000

/-! ## Claim C1 -/

/-- **C1**: the claim states that `Scan` returns a result on every input and
never panics, in particular on inputs containing word-bounded 40- or
64-character hexadecimal tokens.  The code violates this: such a token
reaches `filterHashFalsePositives`, where `fp[:len(lower)]` slices the
32-character false-positive pattern to length 40 and panics (modelled as
`none`).  This theorem evaluates the embedded code at the failing input
`"da39a3ee5e6b4b0d3255bfef95601890afd80709"` (the SHA-1 of the empty string,
a word-bounded 40-character hexadecimal token): `Scan` panics, and the panic
site is `filterHashFalsePositives`. -/
theorem C1_scan_panics_on_long_hash_token :
    Scan "da39a3ee5e6b4b0d3255bfef95601890afd80709".data = none ∧
    filterHashFalsePositives ["da39a3ee5e6b4b0d3255bfef95601890afd80709"] = none := by
  constructor
  · decide
  · decide

/-! ## Claim C6 -/

/-- **C6**: the claim states that a word-bounded token of 64 `f`s or 64 `0`s
is never emitted as any hash type and that the 32-character all-zero/all-f
constants are rejected for md5.  The 32-character half holds (`extractMD5`
filters both constants), but on the 64-character tokens the extractor does
not reach the filtering decision at all: `filterHashFalsePositives` panics
(slice of a 32-character pattern to length 64), so `Scan` fails instead of
returning a result without the token. -/
theorem C6_constant_hash_tokens :
    extractMD5 "ffffffffffffffffffffffffffffffff".data = some [] ∧
    extractMD5 "00000000000000000000000000000000".data = some [] ∧
    Scan (List.replicate 64 'f') = none ∧
    Scan (List.replicate 64 '0') = none := by
  refine ⟨by decide, by decide, by decide, by decide⟩

/-! ## Claim C5 -/

/-- **C5 counterexample**: the claim states trailing characters from
`.,;:!?)` are trimmed exactly once, so `http://x.com).` should canonicalise
to `http://x.com)`.  The code applies `strings.TrimRight`, which removes the
whole maximal trailing run: the result is `http://x.com`. -/
theorem C5_counterexample :
    extractURLs "http://x.com).".data = ["http://x.com"] ∧
    extractURLs "http://x.com).".data ≠ ["http://x.com)"] := by
  refine ⟨by decide, by decide⟩

/-- **C5** (amended): every URL emitted by `extractURLs` has its maximal
trailing run of characters from `.,;:!?)` removed — equivalently, no emitted
URL still ends in a character of the cutset (so the trim is exhaustive, not
single-step). -/
theorem C5_url_trim_exhaustive (content : List Char) (u : String) (c : Char)
    (hu : u ∈ extractURLs content) (hc : u.data.getLast? = some c) :
    urlTrimCutset.contains c = false := by
  have hu2 := mem_of_mem_deduplicate hu
  rcases List.mem_map.mp hu2 with ⟨m, _, hm⟩
  subst hm
  rw [goTrimRight] at hc
  have hc2 : (m.data.reverse.dropWhile (fun x => urlTrimCutset.contains x)).head? =
      some c := by
    rw [← List.getLast?_reverse]
    simpa using hc
  exact head_dropWhile_not _ _ _ hc2

/-- **C5 witness**: the amended theorem applied at the concrete
counterexample input. -/
theorem C5_witness :
    "http://x.com" ∈ extractURLs "http://x.com).".data ∧
    urlTrimCutset.contains 'm' = false :=
  ⟨by decide,
   C5_url_trim_exhaustive "http://x.com).".data "http://x.com" 'm'
     (by decide) (by decide)⟩

/-! ## Claim C2 -/

/-- Reading a Go map after an assignment. -/
theorem goMapGet_goMapSet (m : List (String × IOC)) (k k2 : String) (v : IOC) :
    goMapGet (goMapSet m k v) k2 = if k = k2 then some v else goMapGet m k2 := by
  induction m with
  | nil =>
    by_cases h : k = k2 <;> simp [goMapSet, goMapGet, h]
  | cons p rest ih =>
    obtain ⟨k0, v0⟩ := p
    by_cases h0 : k0 = k
    · subst h0
      by_cases h2 : k0 = k2 <;> simp [goMapSet, goMapGet, h2]
    · by_cases h2 : k0 = k2
      · subst h2
        have hk : ¬ k = k0 := fun h => h0 h.symm
        simp [goMapSet, goMapGet, h0, hk]
      · simp [goMapSet, goMapGet, h0, h2, ih]

/-- The found-map built by `checkHandler` keeps, per value, the last row of
the index result (later assignments shadow earlier ones). -/
theorem goMapGet_buildFoundMap (rows : List IOC) (v : String) :
    goMapGet (buildFoundMap rows) v =
      ((rows.filter (fun i => i.value = v)).getLast?).or (goMapGet [] v) := by
  have key : ∀ (l : List IOC) (m : List (String × IOC)),
      goMapGet (l.foldl (fun m ioc => goMapSet m ioc.value ioc) m) v =
        ((l.filter (fun i => i.value = v)).getLast?).or (goMapGet m v) := by
    intro l
    induction l with
    | nil => intro m; simp
    | cons a as ih =>
      intro m
      rw [List.foldl_cons, ih, goMapGet_goMapSet]
      by_cases ha : a.value = v
      · rw [if_pos ha, List.filter_cons_of_pos (by simpa using ha)]
        cases hflt : as.filter (fun i => decide (i.value = v)) with
        | nil => simp [hflt]
        | cons b bs =>
          rw [List.getLast?_cons_cons,
            List.getLast?_eq_getLast_of_ne_nil (List.cons_ne_nil b bs)]
          simp
      · rw [if_neg ha, List.filter_cons_of_neg (by simpa using ha)]
  exact key rows []

/-- In a list sorted by weakly decreasing `lastSeen`, the last element has
the least `lastSeen`. -/
theorem getLast_pairwise_le {l : List IOC}
    (hp : l.Pairwise (fun a b => b.lastSeen ≤ a.lastSeen)) {r : IOC}
    (hr : l.getLast? = some r) : ∀ x ∈ l, r.lastSeen ≤ x.lastSeen := by
  induction l with
  | nil => cases hr
  | cons a t ih =>
    rcases List.pairwise_cons.mp hp with ⟨ha, hpt⟩
    cases t with
    | nil =>
      rw [List.getLast?_singleton] at hr
      cases hr
      intro x hx
      rcases List.mem_singleton.mp hx with h
      subst h; exact le_refl _
    | cons b t2 =>
      rw [List.getLast?_cons_cons] at hr
      have hmem : r ∈ b :: t2 := by
        rcases List.mem_getLast?_eq_getLast (Option.mem_def.mpr hr) with ⟨hne, heq⟩
        rw [heq]
        exact List.getLast_mem hne
      intro x hx
      rcases List.mem_cons.mp hx with h | h
      · subst h
        exact ha r hmem
      · exact ih hpt hr x h

/-- **C2 counterexample**: the claim states the value-to-record map keeps the
max-`last_seen` record given rows ordered by descending `last_seen`.  With
rows `[lastSeen 5, lastSeen 3]` (descending order), the map built by
`checkHandler` returns the `lastSeen 3` record — the *last* assignment wins,
which under descending order is the minimum, not the maximum. -/
theorem C2_counterexample :
    ([c2rowNewer, c2rowOlder].Pairwise (fun a b => b.lastSeen ≤ a.lastSeen)) ∧
    goMapGet (buildFoundMap [c2rowNewer, c2rowOlder]) "v" = some c2rowOlder ∧
    goMapGet (buildFoundMap [c2rowNewer, c2rowOlder]) "v" ≠ some c2rowNewer ∧
    c2rowOlder.lastSeen < c2rowNewer.lastSeen := by
  refine ⟨by decide, by decide, by decide, by decide⟩

/-- **C2** (amended): in the bulk-check lookup, for a queried value with
multiple matching rows, the enrichment comes from the row with the *least*
`last_seen` for that value: given that `QueryIOCs` returns rows ordered by
descending `last_seen`, the map keeps the last row written per value, which
is the minimum. -/
theorem C2_foundMap_keeps_min_lastSeen (rows : List IOC) (v : String) (r : IOC)
    (hsorted : rows.Pairwise (fun a b => b.lastSeen ≤ a.lastSeen))
    (hget : goMapGet (buildFoundMap rows) v = some r) :
    r ∈ rows ∧ r.value = v ∧
    ∀ x ∈ rows, x.value = v → r.lastSeen ≤ x.lastSeen := by
  rw [goMapGet_buildFoundMap] at hget
  simp only [goMapGet, Option.or_none] at hget
  have hrmem : r ∈ rows.filter (fun i => decide (i.value = v)) := by
    rcases List.mem_getLast?_eq_getLast (Option.mem_def.mpr hget) with ⟨hne, heq⟩
    rw [heq]
    exact List.getLast_mem hne
  rcases List.mem_filter.mp hrmem with ⟨hrl, hrv⟩
  refine ⟨hrl, by simpa using hrv, ?_⟩
  intro x hx hxv
  have hxmem : x ∈ rows.filter (fun i => decide (i.value = v)) :=
    List.mem_filter.mpr ⟨hx, by simpa using hxv⟩
  exact getLast_pairwise_le (hsorted.filter _) hget x hxmem

/-- **C2 witness**: the amended theorem applied at the two-row
counterexample instance. -/
theorem C2_witness :
    c2rowOlder ∈ [c2rowNewer, c2rowOlder] ∧ c2rowOlder.value = "v" ∧
    ∀ x ∈ [c2rowNewer, c2rowOlder], x.value = "v" →
      c2rowOlder.lastSeen ≤ x.lastSeen :=
  C2_foundMap_keeps_min_lastSeen [c2rowNewer, c2rowOlder] "v" c2rowOlder
    (by decide) (by decide)

/-! ## Claim C3 -/

/-- **C3 counterexample**: the claim states a file whose index batch-insert
or blob upload fails is upserted with `scan_status = failed` and a non-empty
`error_message`.  The code merely logs those failures: with a failing batch
insert the record is upserted as `infected` with empty `error_message` (and
no rows committed), and with a failing upload it is upserted as `misc` with
empty `error_message`. -/
theorem C3_counterexample :
    processFile (fun p => p) c3envInsert c3job =
      some { status := .infected, errorMsg := none,
             upserted := some c3metaInsert, inserted := [],
             uploadedKey := none,
             processedInc := 1, skippedInc := 0, failedInc := 0 } ∧
    c3metaInsert.scanStatus ≠ ScanStatus.failed ∧
    c3metaInsert.errorMessage = "" ∧
    processFile (fun p => p) c3envUpload c3job =
      some { status := .misc, errorMsg := none,
             upserted := some c3metaUpload, inserted := [],
             uploadedKey := none,
             processedInc := 1, skippedInc := 0, failedInc := 0 } ∧
    c3metaUpload.scanStatus ≠ ScanStatus.failed ∧
    c3metaUpload.errorMessage = "" := by
  refine ⟨by decide, by decide, by decide, by decide, by decide, by decide⟩

/-- **C3** (amended): batch-insert and blob-upload failures do *not* mark the
file `failed`: for every changed, readable file whose scan succeeds, the
upserted File Record has empty `error_message` and status `infected` (IOCs
found) or `misc` (none found) regardless of whether the insert or upload
succeeded; a failed batch insert commits no rows; and the pipeline continues
past the file (the worker yields an outcome and `runPass` proceeds with the
remaining jobs). -/
theorem C3_store_failures_not_marked_failed
    (gen : String → String) (registry : String → Option FileMetadata)
    (readF : String → Except String (List Char)) (insOk upOk : Bool)
    (now : Nat) (job : FileJob) (content : List Char) (res : ScanResult)
    (hchanged : CheckFileChanged registry (gen job.filePath) job.lastModified = true)
    (hread : readF job.filePath = .ok content)
    (hscan : Scan content = some res) :
    ∃ o m, processFile gen ⟨registry, readF, insOk, upOk, now⟩ job = some o ∧
      o.upserted = some m ∧
      m.errorMessage = "" ∧
      m.scanStatus =
        (if 0 < CountIOCs res then ScanStatus.infected else ScanStatus.misc) ∧
      (insOk = false → o.inserted = []) ∧
      ∀ rest st, st.registry = registry →
        runPass gen insOk upOk now readF (job :: rest) st =
          runPass gen insOk upOk now readF rest (applyOutcome st o) := by
  unfold processFile
  dsimp only
  rw [hchanged]
  simp only [Bool.not_true, Bool.false_eq_true, if_false, hread, hscan]
  by_cases hcount : 0 < CountIOCs res
  · rw [if_pos hcount]
    refine ⟨_, _, rfl, rfl, rfl, by rw [if_pos hcount], fun hins => by rw [hins]; simp, ?_⟩
    intro rest st hst
    have henv : (⟨st.registry, readF, insOk, upOk, now⟩ : WorkerEnv) =
        ⟨registry, readF, insOk, upOk, now⟩ := by rw [hst]
    rw [runPass, henv]
    unfold processFile
    dsimp only
    rw [hchanged]
    simp only [Bool.not_true, Bool.false_eq_true, if_false, hread, hscan]
    rw [if_pos hcount]
  · rw [if_neg hcount]
    refine ⟨_, _, rfl, rfl, rfl, by rw [if_neg hcount], fun _ => rfl, ?_⟩
    intro rest st hst
    have henv : (⟨st.registry, readF, insOk, upOk, now⟩ : WorkerEnv) =
        ⟨registry, readF, insOk, upOk, now⟩ := by rw [hst]
    rw [runPass, henv]
    unfold processFile
    dsimp only
    rw [hchanged]
    simp only [Bool.not_true, Bool.false_eq_true, if_false, hread, hscan]
    rw [if_neg hcount]

/-- **C3 witness**: the amended theorem applied at the insert-failure
environment. -/
theorem C3_witness :
    ∃ o m, processFile (fun p => p)
        ⟨c3envInsert.registry, c3envInsert.readFile, false, true, 0⟩ c3job = some o ∧
      o.upserted = some m ∧
      m.errorMessage = "" ∧
      m.scanStatus =
        (if 0 < CountIOCs scanOneIPv4 then ScanStatus.infected else ScanStatus.misc) ∧
      (false = false → o.inserted = []) ∧
      ∀ rest st, st.registry = c3envInsert.registry →
        runPass (fun p => p) false true 0 c3envInsert.readFile (c3job :: rest) st =
          runPass (fun p => p) false true 0 c3envInsert.readFile rest (applyOutcome st o) :=
  C3_store_failures_not_marked_failed (fun p => p) c3envInsert.registry
    c3envInsert.readFile false true 0 c3job "8.8.8.8".data scanOneIPv4
    rfl rfl (by decide)

/-! ## Claim C4 -/

/-- **C4 counterexample**: the claim states that a request whose record has
an empty `blob_key` signals not-found with the requested id echoed.  The
code instead falls back to `file_id` as the blob key: when the blob store
has an object under that key the handler streams it with status 200, and
when it does not, the 404 carries a fixed message (`"File may not have been
stored in object storage"`), not the requested id. -/
theorem C4_counterexample :
    contextHandler c4reg c4blobHit "abc" =
      .okStream "text/plain" 18 "attachment; filename=\"abc\"" "abc" "/data/b.bin" ∧
    contextHandler c4reg c4blobHit "abc" ≠
      .notFound { error := "File not found", code := 404, details := "abc" } ∧
    contextHandler c4reg c4blobMiss "abc" =
      .notFound { error := "File content not available", code := 404,
                  details := "File may not have been stored in object storage" } ∧
    "File may not have been stored in object storage" ≠ "abc" := by
  refine ⟨by decide, by decide, by decide, by decide⟩

/-- **C4** (amended): a request whose `file_id` resolves to no File Record
gets a 404 echoing the requested id.  A record with empty `blob_key` does
*not* directly signal not-found: the handler substitutes `file_id` as the
blob key and queries the blob store, streaming the object when present,
answering 404 with a fixed message (no id echoed) when the fetch fails, and
500 when the fetched object's stat fails. -/
theorem C4_context_empty_blob_key_fallback
    (reg : String → Option FileMetadata) (blob : String → GetObjectResult)
    (id : String) (hid : id ≠ "") :
    (reg id = none →
      contextHandler reg blob id =
        .notFound { error := "File not found", code := 404, details := id }) ∧
    (∀ meta, reg id = some meta → meta.minioKey = "" →
      contextHandler reg blob id =
        match blob id with
        | .errGet =>
          .notFound { error := "File content not available", code := 404,
                      details := "File may not have been stored in object storage" }
        | .okStatErr =>
          .serverError { error := "Failed to get file info", code := 500 }
        | .okObj info =>
          .okStream info.contentType info.size
            ("attachment; filename=\"" ++ id ++ "\"") id meta.filePath) := by
  constructor
  · intro hnone
    unfold contextHandler
    rw [if_neg hid, hnone]
  · intro meta hsome hkey
    unfold contextHandler
    rw [if_neg hid, hsome]
    dsimp only
    rw [hkey]
    simp

/-- **C4 witness**: the amended theorem applied at an unknown id and at the
empty-`blob_key` record. -/
theorem C4_witness :
    contextHandler c4reg c4blobMiss "zzz" =
      .notFound { error := "File not found", code := 404, details := "zzz" } ∧
    contextHandler c4reg c4blobHit "abc" =
      .okStream "text/plain" 18 "attachment; filename=\"abc\"" "abc" "/data/b.bin" := by
  constructor
  · exact (C4_context_empty_blob_key_fallback c4reg c4blobMiss "zzz"
      (by decide)).1 (by decide)
  · have h := (C4_context_empty_blob_key_fallback c4reg c4blobHit "abc"
      (by decide)).2 c4meta (by decide) (by decide)
    rw [h]
    decide

/-! ## Claim C7 -/

/-- Applying the skip outcome only bumps the skipped counter. -/
theorem applyOutcome_skip (st : PipeState) :
    applyOutcome st skipOutcome = { st with skipped := st.skipped + 1 } := by
  simp [applyOutcome, skipOutcome]

/-- **C7**: for every file whose stored `last_modified` equals the observed
one, the worker marks a transient `clean` decision and returns before any
registry upsert or index insert; consequently a pass over a tree in which
every file is unchanged processes 0 files, upserts nothing (the registry
function is unchanged), and inserts no index rows — only the skipped counter
grows. -/
theorem C7_unchanged_files_skipped
    (gen : String → String) (insOk upOk : Bool) (now : Nat)
    (readF : String → Except String (List Char))
    (jobs : List FileJob) (st : PipeState)
    (h : ∀ job ∈ jobs, ∃ m, st.registry (gen job.filePath) = some m ∧
      m.lastModified = job.lastModified) :
    (∀ job ∈ jobs,
      processFile gen ⟨st.registry, readF, insOk, upOk, now⟩ job =
        some skipOutcome) ∧
    runPass gen insOk upOk now readF jobs st =
      some { st with skipped := st.skipped + jobs.length } := by
  have hskip : ∀ (st2 : PipeState) (job : FileJob),
      (∃ m, st2.registry (gen job.filePath) = some m ∧
        m.lastModified = job.lastModified) →
      processFile gen ⟨st2.registry, readF, insOk, upOk, now⟩ job =
        some skipOutcome := by
    intro st2 job hj
    rcases hj with ⟨m, hm, hlm⟩
    unfold processFile
    dsimp only
    rw [CheckFileChanged, hm]
    simp [hlm, skipOutcome]
  constructor
  · intro job hj
    exact hskip st job (h job hj)
  · induction jobs generalizing st with
    | nil => rfl
    | cons job rest ih =>
      rw [runPass, hskip st job (h job (List.mem_cons_self job rest))]
      dsimp only
      rw [applyOutcome_skip,
        ih { st with skipped := st.skipped + 1 }
          (fun j hj => h j (List.mem_cons_of_mem job hj))]
      simp [Nat.add_assoc, Nat.add_comm 1 rest.length]

/-- **C7 witness**: the theorem applied at a one-file unchanged tree. -/
theorem C7_witness :
    (∀ job ∈ c7jobs,
      processFile (fun p => p) ⟨c7st.registry, c7readF, true, true, 9⟩ job =
        some skipOutcome) ∧
    runPass (fun p => p) true true 9 c7readF c7jobs c7st =
      some { c7st with skipped := c7st.skipped + c7jobs.length } :=
  C7_unchanged_files_skipped (fun p => p) true true 9 c7readF c7jobs c7st
    (by
      intro job hj
      simp only [c7jobs, List.mem_singleton] at hj
      subst hj
      exact ⟨c7meta, rfl, rfl⟩)

/-! ## Claim C8 -/

/-- Found + not-found counts always partition the request length. -/
theorem check_found_counts (iocs : List String) (fm : List (String × IOC)) :
    (iocs.map (resultFor fm)).countP (fun r => r.found) +
      (iocs.length - (iocs.map (resultFor fm)).countP (fun r => r.found)) =
      iocs.length := by
  have hle : (iocs.map (resultFor fm)).countP (fun r => r.found) ≤
      iocs.length := by
    calc (iocs.map (resultFor fm)).countP (fun r => r.found) ≤
        (iocs.map (resultFor fm)).length := List.countP_le_length _
      _ = iocs.length := List.length_map _ _
  omega

/-- Every positional result echoes its queried value. -/
theorem resultFor_ioc (fm : List (String × IOC)) (v : String) :
    (resultFor fm v).ioc = v := by
  unfold resultFor
  cases goMapGet fm v <;> rfl

/-- **C8**: for every `/check` request with a non-empty list of at most 1000
IOC strings (and any behaviour of the membership filter and the index), the
response is 200 with `results` of the same length as the input,
`results[i].ioc = iocs[i]` at every position, `total` equal to the input
length, and `found + not_found = total`. -/
theorem C8_check_positional
    (bloom : List String → Option (List Bool))
    (queryIOCs : List String → Option (List IOC))
    (iocs : List String) (h1 : 0 < iocs.length) (h2 : iocs.length ≤ 1000) :
    ∃ resp, checkHandler bloom queryIOCs iocs = .ok resp ∧
      resp.results.length = iocs.length ∧
      (∀ (i : Nat) (hi : i < resp.results.length) (hi2 : i < iocs.length),
        (resp.results.get ⟨i, hi⟩).ioc = iocs.get ⟨i, hi2⟩) ∧
      resp.total = iocs.length ∧
      resp.found + resp.notFound = resp.total := by
  unfold checkHandler
  rw [if_neg (by omega), if_neg (by omega)]
  refine ⟨_, rfl, List.length_map _ _, ?_, rfl, ?_⟩
  · intro i hi hi2
    rw [List.get_map]
    exact resultFor_ioc _ _
  · exact check_found_counts iocs _

/-- **C8 witness**: the theorem applied to the one-element request `["x"]`. -/
theorem C8_witness :
    ∃ resp, checkHandler bloomErr queryErr ["x"] = .ok resp ∧
      resp.results.length = (["x"] : List String).length ∧
      (∀ (i : Nat) (hi : i < resp.results.length)
        (hi2 : i < (["x"] : List String).length),
        (resp.results.get ⟨i, hi⟩).ioc = (["x"] : List String).get ⟨i, hi2⟩) ∧
      resp.total = (["x"] : List String).length ∧
      resp.found + resp.notFound = resp.total :=
  C8_check_positional bloomErr queryErr ["x"] (by decide) (by decide)

/-! ## Claim C9 -/

/-- **C9**: a `/check` request with an empty `iocs` array is rejected with
400 (`"No IOCs provided"`), one with more than 1000 items is rejected with
400 `"Too many IOCs"`, and on both paths neither the membership filter nor
the index is consulted: the outcome is identical for every pair of store
oracles. -/
theorem C9_check_guards
    (bloom bloom2 : List String → Option (List Bool))
    (queryIOCs queryIOCs2 : List String → Option (List IOC))
    (iocs : List String) :
    (iocs.length = 0 →
      checkHandler bloom queryIOCs iocs =
        .badRequest { error := "No IOCs provided", code := 400 }) ∧
    (1000 < iocs.length →
      checkHandler bloom queryIOCs iocs =
        .badRequest { error := "Too many IOCs", code := 400,
                      details := "Maximum 1000 IOCs per request" }) ∧
    (iocs.length = 0 ∨ 1000 < iocs.length →
      checkHandler bloom queryIOCs iocs = checkHandler bloom2 queryIOCs2 iocs) := by
  refine ⟨?_, ?_, ?_⟩
  · intro h0
    unfold checkHandler
    rw [if_pos h0]
  · intro hbig
    unfold checkHandler
    rw [if_neg (by omega), if_pos hbig]
  · rintro (h0 | hbig)
    · unfold checkHandler
      rw [if_pos h0, if_pos h0]
    · unfold checkHandler
      rw [if_neg (by omega), if_pos hbig, if_neg (by omega), if_pos hbig]

/-- **C9 witness**: the guards applied at the empty request and at a request
of 1001 items. -/
theorem C9_witness :
    checkHandler bloomErr queryErr [] =
      .badRequest { error := "No IOCs provided", code := 400 } ∧
    checkHandler bloomErr queryErr (List.replicate 1001 "x") =
      .badRequest { error := "Too many IOCs", code := 400,
                    details := "Maximum 1000 IOCs per request" } :=
  ⟨(C9_check_guards bloomErr bloomErr queryErr queryErr []).1 rfl,
   (C9_check_guards bloomErr bloomErr queryErr queryErr
      (List.replicate 1001 "x")).2.1 (by simp)⟩

/-! ## Claim C10 -/

/-- **C10**: when the configured API key is the empty string (the
`config.Load` default), the auth middleware never answers "invalid key": on
a non-skipped path any request presenting a non-empty key (via `X-API-Key`
or a `Bearer` token) is authorized, and the middleware answers 401
(`missingKey`) exactly when the path is not skipped and no key was
presented. -/
theorem C10_empty_config_key_accepts_any
    (skipPaths : List String) (path xApiKey authHeader : String) :
    (authMiddleware defaultAPIKey skipPaths path xApiKey authHeader ≠
      .invalidKey) ∧
    (pathSkipped skipPaths path = false → extractKey xApiKey authHeader ≠ "" →
      authMiddleware defaultAPIKey skipPaths path xApiKey authHeader =
        .authorized (extractKey xApiKey authHeader)) ∧
    (authMiddleware defaultAPIKey skipPaths path xApiKey authHeader =
        .missingKey ↔
      pathSkipped skipPaths path = false ∧
        extractKey xApiKey authHeader = "") := by
  by_cases hskip : pathSkipped skipPaths path <;>
    by_cases hkey : extractKey xApiKey authHeader = "" <;>
      simp [authMiddleware, defaultAPIKey, hskip, hkey]

/-- **C10 witness**: the theorem applied with a Bearer token and with no
credentials at all. -/
theorem C10_witness :
    authMiddleware defaultAPIKey ["/health"] "/check" "" "Bearer secret" =
      .authorized "secret" ∧
    authMiddleware defaultAPIKey ["/health"] "/check" "" "" = .missingKey := by
  constructor
  · have h := (C10_empty_config_key_accepts_any ["/health"] "/check" ""
      "Bearer secret").2.1 (by decide) (by decide)
    rw [h]
    decide
  · exact (C10_empty_config_key_accepts_any ["/health"] "/check" "" "").2.2.mpr
      ⟨by decide, by decide⟩

end TIP
